import Mathlib

/-
Shallow embedding of the fanoutwriter package (fanoutwriter.go).

The Go object fwriter holds a byte buffer, a low-water offset, a closed
flag, and a set of registered clients; each client holds its own offset.
We model bytes as natural numbers, Go ints as Int, the client set as a
list of handles tagged with a registration flag (deletion from the Go map
clears the flag; the Go client struct itself survives deletion and can
still be used), and client identity as a numeric id.  Operations that can
abort at runtime in Go (a slice expression with an out-of-range index, or
the explicit abort in NewReader on a closed writer) return none.
-/

structure Handle where
  hid : Nat
  off : Int
  reg : Bool
deriving DecidableEq

structure Config where
  buf : List Nat
  limit : Int
  readFromStart : Bool
deriving DecidableEq

structure FW where
  buf : List Nat
  off : Int
  closed : Bool
  handles : List Handle
  nextId : Nat
deriving DecidableEq

/-- NewFanoutWriter: off starts at 0 when ReadFromStart, else at len(Buf). -/
def newFanoutWriter (cfg : Config) : FW :=
  { buf := cfg.buf
    off := if cfg.readFromStart then 0 else (cfg.buf.length : Int)
    closed := false
    handles := []
    nextId := 0 }

/-- The handles currently present in the Go clients map. -/
def FW.registered (s : FW) : List Handle := s.handles.filter (fun h => h.reg)

/-- Offsets of the registered handles, as iterated by updateOff and Write. -/
def regOffsets (s : FW) : List Int := s.registered.map (fun h => h.off)

def numRegistered (s : FW) : Nat := s.registered.length

inductive WErr where
  | closedPipe
deriving DecidableEq

/-- fwriter.Write.  Result is ((n, err), new state); none models the Go
slice-range abort that the source would hit when Limit is negative. -/
def write (cfg : Config) (s : FW) (p : List Nat) : Option ((Nat × Option WErr) × FW) :=
  if p.length = 0 then some ((0, none), s)
  else if s.closed then some ((0, some WErr.closedPipe), s)
  else if cfg.readFromStart = false ∧ numRegistered s = 0 then some ((p.length, none), s)
  else if cfg.limit ≠ 0 then
    if cfg.limit > (p.length : Int) then
      let invalidBytes : Int := (s.buf.length : Int) + (p.length : Int) - cfg.limit
      if invalidBytes > 0 then
        some ((p.length, none),
          { s with buf := s.buf.drop invalidBytes.toNat ++ p, off := s.off + invalidBytes })
      else
        some ((p.length, none), { s with buf := s.buf ++ p })
    else if cfg.limit < 0 then
      none
    else
      some ((p.length, none),
        { s with off := s.off + (s.buf.length : Int),
                 buf := p.drop (p.length - cfg.limit.toNat) })
  else
    some ((p.length, none), { s with buf := s.buf ++ p })

/-- fwriter.Close: sets the closed flag and returns no error. -/
def closeWriter (s : FW) : FW := { s with closed := true }

/-- The offJump value computed by updateOff: start at len(buf), take the
minimum with every registered client offset minus the writer offset. -/
def offJumpVal (s : FW) : Int :=
  ((regOffsets s).map (fun o => o - s.off)).foldl min ((s.buf.length : Int))

/-- fwriter.updateOff.  In the source a negative offJump aborts the program
at the slice expression; we return none there. -/
def updateOff (cfg : Config) (s : FW) : Option FW :=
  if cfg.readFromStart then some s
  else
    let j := offJumpVal s
    if j < 0 then none
    else some { s with buf := s.buf.drop j.toNat, off := s.off + j }

/-- fwriter.NewReader.  On a closed writer the source aborts; we return
none.  Otherwise the new handle starts at off, plus len(buf) in tail mode. -/
def newReader (cfg : Config) (s : FW) : Option (FW × Nat) :=
  if s.closed then none
  else
    some ({ s with
              handles := s.handles ++
                [⟨s.nextId, if cfg.readFromStart then s.off else s.off + (s.buf.length : Int), true⟩]
              nextId := s.nextId + 1 },
          s.nextId)

def findHandle (s : FW) (hid : Nat) : Option Handle :=
  s.handles.find? (fun h => h.hid == hid)

/-- Overwrite the stored offset of the handle with the given id. -/
def setOff (s : FW) (hid : Nat) (v : Int) : FW :=
  { s with handles := s.handles.map (fun h => if h.hid == hid then { h with off := v } else h) }

/-- Removal from the Go clients map: the handle survives with reg cleared. -/
def deregister (s : FW) (hid : Nat) : FW :=
  { s with handles := s.handles.map (fun h => if h.hid == hid then { h with reg := false } else h) }

inductive ReadRes where
  | data (bs : List Nat)
  | eof
  | fellBehind
  | wouldBlock
deriving DecidableEq

/-- client.Read with a destination of capacity cap.  wouldBlock stands for
the cond-wait branch (no data, writer still open).  none models either an
impossible call (no such handle) or the abort inside updateOff. -/
def Read (cfg : Config) (s : FW) (hid : Nat) (cap : Nat) : Option (ReadRes × FW) :=
  match findHandle s hid with
  | none => none
  | some h =>
    let localoff := h.off - s.off
    if localoff > (s.buf.length : Int) ∨ localoff < 0 then
      some (ReadRes.fellBehind, deregister s hid)
    else
      let lbuf := s.buf.drop localoff.toNat
      if lbuf.length = 0 then
        if s.closed then some (ReadRes.eof, s)
        else some (ReadRes.wouldBlock, s)
      else
        let ncopy := min cap lbuf.length
        if 0 < ncopy then
          match updateOff cfg (setOff s hid (h.off + (ncopy : Int))) with
          | none => none
          | some s2 => some (ReadRes.data (lbuf.take ncopy), s2)
        else
          some (ReadRes.data [], s)

/-- client.Close: deregister, then run updateOff only when the writer
offset equals this handle's offset. -/
def clientClose (cfg : Config) (s : FW) (hid : Nat) : Option FW :=
  match findHandle s hid with
  | none => none
  | some h =>
    if s.off = h.off then updateOff cfg (deregister s hid)
    else some (deregister s hid)

inductive Op where
  | doWrite (p : List Nat)
  | doNewReader
  | doRead (hid : Nat) (cap : Nat)
  | doCloseWriter
  | doCloseReader (hid : Nat)
deriving DecidableEq

def step (cfg : Config) (s : FW) : Op → Option FW
  | Op.doWrite p => (write cfg s p).map (fun r => r.2)
  | Op.doNewReader => (newReader cfg s).map (fun r => r.1)
  | Op.doRead hid cap => (Read cfg s hid cap).map (fun r => r.2)
  | Op.doCloseWriter => some (closeWriter s)
  | Op.doCloseReader hid => clientClose cfg s hid

def run (cfg : Config) (s : FW) : List Op → Option FW
  | [] => some s
  | op :: rest =>
    match step cfg s op with
    | none => none
    | some s2 => run cfg s2 rest

/-- Iterate reads on one handle with the given destination capacities,
concatenating the data returned; an eof result contributes nothing. -/
def drainReads (cfg : Config) (s : FW) (hid : Nat) : List Nat → Option (List Nat × FW)
  | [] => some ([], s)
  | cap :: rest =>
    match Read cfg s hid cap with
    | some (ReadRes.data bs, s2) =>
      match drainReads cfg s2 hid rest with
      | some (acc, sf) => some (bs ++ acc, sf)
      | none => none
    | some (ReadRes.eof, s2) => drainReads cfg s2 hid rest
    | _ => none

/-- Every registered offset lies inside the retained window. -/
def inWindow (s : FW) : Prop :=
  ∀ o ∈ regOffsets s, 0 ≤ o - s.off ∧ o - s.off ≤ (s.buf.length : Int)

instance (s : FW) : Decidable (inWindow s) := by
  unfold inWindow
  infer_instance

/-
Generic helper lemmas about the left fold of min, used to characterize
offJumpVal, and about find? over the handle-updating maps.
-/

theorem foldl_min_le_init (l : List Int) (a : Int) : l.foldl min a ≤ a := by
  induction l generalizing a with
  | nil => exact le_refl a
  | cons x xs ih => exact le_trans (ih (min a x)) (min_le_left a x)

theorem foldl_min_le_mem : ∀ (l : List Int) (a x : Int), x ∈ l → l.foldl min a ≤ x := by
  intro l
  induction l with
  | nil => intro a x hx; cases hx
  | cons b xs ih =>
    intro a x hx
    rcases List.mem_cons.mp hx with h1 | h2
    · subst h1
      exact le_trans (foldl_min_le_init xs (min a x)) (min_le_right a x)
    · exact ih (min a b) x h2

theorem le_foldl_min : ∀ (l : List Int) (a b : Int), b ≤ a → (∀ x ∈ l, b ≤ x) →
    b ≤ l.foldl min a := by
  intro l
  induction l with
  | nil => intro a b hb _; exact hb
  | cons c xs ih =>
    intro a b hb hl
    exact ih (min a c) b (le_min hb (hl c (List.mem_cons_self c xs)))
      (fun x hx => hl x (List.mem_cons_of_mem c hx))

theorem foldl_min_eq_init_or_mem : ∀ (l : List Int) (a : Int),
    l.foldl min a = a ∨ l.foldl min a ∈ l := by
  intro l
  induction l with
  | nil => intro a; exact Or.inl rfl
  | cons c xs ih =>
    intro a
    rcases ih (min a c) with h | h
    · rcases min_choice a c with h2 | h2
      · exact Or.inl (by rw [List.foldl_cons, h, h2])
      · exact Or.inr (by rw [List.foldl_cons, h, h2]; exact List.mem_cons_self c xs)
    · exact Or.inr (List.mem_cons_of_mem c h)

theorem take_min_len (u : List Nat) (cap : Nat) : u.take (min cap u.length) = u.take cap := by
  rcases le_total cap u.length with hle | hle
  · rw [min_eq_left hle]
  · rw [min_eq_right hle, List.take_length, List.take_of_length_le hle]

theorem drop_min_len (u : List Nat) (cap : Nat) : u.drop (min cap u.length) = u.drop cap := by
  rcases le_total cap u.length with hle | hle
  · rw [min_eq_left hle]
  · rw [min_eq_right hle, List.drop_length, List.drop_eq_nil_of_le hle]

theorem find?_map_ite (u : Handle → Handle) (hu : ∀ h, (u h).hid = h.hid) :
    ∀ (l : List Handle) (hid : Nat),
      (l.map (fun h => if h.hid == hid then u h else h)).find? (fun h => h.hid == hid)
        = (l.find? (fun h => h.hid == hid)).map u := by
  intro l
  induction l with
  | nil => intro hid; rfl
  | cons h t ih =>
    intro hid
    cases hh : (h.hid == hid) with
    | true =>
      have hh2 : ((u h).hid == hid) = true := by rw [hu h]; exact hh
      rw [List.map_cons, if_pos hh,
        List.find?_cons_of_pos (p := fun h0 : Handle => h0.hid == hid) _ hh2,
        List.find?_cons_of_pos (p := fun h0 : Handle => h0.hid == hid) _ hh]
      rfl
    | false =>
      have hh2 : ¬ ((h.hid == hid) = true) := by rw [hh]; exact Bool.false_ne_true
      rw [List.map_cons, if_neg hh2,
        List.find?_cons_of_neg (p := fun h0 : Handle => h0.hid == hid) _ hh2,
        List.find?_cons_of_neg (p := fun h0 : Handle => h0.hid == hid) _ hh2, ih hid]

theorem findHandle_setOff (s : FW) (hid : Nat) (v : Int) :
    findHandle (setOff s hid v) hid
      = (findHandle s hid).map (fun h => { h with off := v }) := by
  unfold findHandle setOff
  exact find?_map_ite (fun h => { h with off := v }) (fun h => rfl) s.handles hid

theorem mem_regOffsets (s : FW) (h : Handle) (hmem : h ∈ s.handles) (hreg : h.reg = true) :
    h.off ∈ regOffsets s := by
  unfold regOffsets FW.registered
  exact List.mem_map_of_mem _ (List.mem_filter.mpr ⟨hmem, by simp [hreg]⟩)

theorem regOffsets_setOff_subset (s : FW) (hid : Nat) (v : Int) :
    ∀ o ∈ regOffsets (setOff s hid v), o = v ∨ o ∈ regOffsets s := by
  intro o ho
  unfold regOffsets FW.registered setOff at ho
  simp only [List.mem_map, List.mem_filter] at ho
  obtain ⟨h2, ⟨⟨h1, h1mem, h1eq⟩, h2reg⟩, h2off⟩ := ho
  cases hh : (h1.hid == hid) with
  | true =>
    rw [hh] at h1eq
    simp only [if_true] at h1eq
    left
    rw [← h2off, ← h1eq]
  | false =>
    rw [hh] at h1eq
    simp only [Bool.false_eq_true, if_false] at h1eq
    right
    rw [← h2off, ← h1eq]
    exact mem_regOffsets s h1 h1mem (by rw [h1eq]; exact h2reg)

theorem regOffsets_setOff_self (s : FW) (hid : Nat) (v : Int) (h : Handle)
    (hmem : h ∈ s.handles) (hhid : h.hid = hid) (hreg : h.reg = true) :
    v ∈ regOffsets (setOff s hid v) := by
  have hmem2 : ({ h with off := v } : Handle) ∈ (setOff s hid v).handles := by
    unfold setOff
    have := List.mem_map_of_mem
      (fun h0 : Handle => if h0.hid == hid then { h0 with off := v } else h0) hmem
    simpa [hhid] using this
  exact mem_regOffsets (setOff s hid v) { h with off := v } hmem2 hreg

/-- The state seen by one registered reader of a closed writer: the writer
is closed, the handle is registered, and every registered offset lies in
the retained window. -/
def ReaderInv (s : FW) (hid : Nat) (h : Handle) : Prop :=
  s.closed = true ∧ findHandle s hid = some h ∧ h.reg = true ∧ inWindow s

/-- The retained bytes this handle has not consumed yet. -/
def unconsumed (s : FW) (h : Handle) : List Nat := s.buf.drop (h.off - s.off).toNat

theorem read_eq_of_find (cfg : Config) (s : FW) (hid : Nat) (h : Handle) (cap : Nat)
    (hf : findHandle s hid = some h) :
    Read cfg s hid cap =
      (if h.off - s.off > (s.buf.length : Int) ∨ h.off - s.off < 0 then
        some (ReadRes.fellBehind, deregister s hid)
      else if (s.buf.drop (h.off - s.off).toNat).length = 0 then
        if s.closed then some (ReadRes.eof, s)
        else some (ReadRes.wouldBlock, s)
      else if 0 < min cap (s.buf.drop (h.off - s.off).toNat).length then
        match updateOff cfg
            (setOff s hid (h.off + (min cap (s.buf.drop (h.off - s.off).toNat).length : Nat))) with
        | none => none
        | some s2 =>
          some (ReadRes.data ((s.buf.drop (h.off - s.off).toNat).take
            (min cap (s.buf.drop (h.off - s.off).toNat).length)), s2)
      else
        some (ReadRes.data [], s)) := by
  unfold Read
  rw [hf]

theorem setOff_buf (s : FW) (hid : Nat) (v : Int) : (setOff s hid v).buf = s.buf := rfl

theorem setOff_off (s : FW) (hid : Nat) (v : Int) : (setOff s hid v).off = s.off := rfl

theorem setOff_closed (s : FW) (hid : Nat) (v : Int) : (setOff s hid v).closed = s.closed := rfl

/-- One Read of a positive-capacity destination by an in-window registered
reader of a closed writer: either nothing is left and the call reports end
of stream without changing anything, or it returns the next take of the
unconsumed bytes and re-establishes the same situation. -/
theorem read_closed_step (cfg : Config) (s : FW) (hid : Nat) (h : Handle) (cap : Nat)
    (hI : ReaderInv s hid h) (hcap : 0 < cap) :
    (unconsumed s h = [] ∧ Read cfg s hid cap = some (ReadRes.eof, s))
    ∨ (∃ s2 h2, Read cfg s hid cap = some (ReadRes.data ((unconsumed s h).take cap), s2)
        ∧ ReaderInv s2 hid h2 ∧ unconsumed s2 h2 = (unconsumed s h).drop cap) := by
  obtain ⟨hc, hf, hr, hw⟩ := hI
  have hmem : h ∈ s.handles := List.mem_of_find?_eq_some hf
  have hhid : h.hid = hid := by
    have := List.find?_some hf
    simpa using this
  obtain ⟨hL0, hLlen⟩ := hw h.off (mem_regOffsets s h hmem hr)
  have hnot : ¬ (h.off - s.off > (s.buf.length : Int) ∨ h.off - s.off < 0) := by
    push_neg
    exact ⟨hLlen, hL0⟩
  have hulen : (unconsumed s h).length = s.buf.length - (h.off - s.off).toNat := by
    unfold unconsumed
    exact List.length_drop _ _
  rw [read_eq_of_find cfg s hid h cap hf, if_neg hnot]
  by_cases hlb : (s.buf.drop (h.off - s.off).toNat).length = 0
  · left
    refine ⟨List.length_eq_zero.mp hlb, ?_⟩
    rw [if_pos hlb, if_pos hc]
  · right
    have hupos : 0 < (unconsumed s h).length := Nat.pos_of_ne_zero hlb
    have hncopy : 0 < min cap (s.buf.drop (h.off - s.off).toNat).length :=
      lt_min hcap hupos
    rw [if_neg hlb, if_pos hncopy]
    set ncopy := min cap (s.buf.drop (h.off - s.off).toNat).length with hnc
    have hnclen : ncopy ≤ (unconsumed s h).length := min_le_right _ _
    set s1 := setOff s hid (h.off + (ncopy : Nat)) with hs1
    set h2 : Handle := { h with off := h.off + (ncopy : Nat) } with hh2
    have hfind1 : findHandle s1 hid = some h2 := by
      rw [hs1, findHandle_setOff, hf]
      rfl
    have htake : (s.buf.drop (h.off - s.off).toNat).take ncopy = (unconsumed s h).take cap := by
      rw [hnc]
      exact take_min_len _ cap
    have hdropn : (unconsumed s h).drop ncopy = (unconsumed s h).drop cap := by
      rw [hnc]
      exact drop_min_len _ cap
    have hself : (h.off + (ncopy : Nat)) ∈ regOffsets s1 :=
      regOffsets_setOff_self s hid (h.off + (ncopy : Nat)) h hmem hhid hr
    have hbound1 : ∀ o ∈ regOffsets s1, 0 ≤ o - s.off ∧ o - s.off ≤ (s.buf.length : Int) := by
      intro o ho
      rcases regOffsets_setOff_subset s hid (h.off + (ncopy : Nat)) o ho with hv | hold
      · subst hv
        constructor
        · omega
        · omega
      · exact hw o hold
    cases hrfs : cfg.readFromStart with
    | true =>
      have hupd : updateOff cfg s1 = some s1 := by
        unfold updateOff
        rw [if_pos hrfs]
      rw [hupd]
      refine ⟨s1, h2, by rw [htake], ⟨?_, hfind1, hr, ?_⟩, ?_⟩
      · rw [hs1, setOff_closed]; exact hc
      · intro o ho
        rw [hs1, setOff_off, setOff_buf]
        exact hbound1 o ho
      · rw [← hdropn]
        unfold unconsumed
        rw [hs1, setOff_buf, setOff_off, hh2]
        show s.buf.drop (h.off + (ncopy : Nat) - s.off).toNat = _
        rw [show (h.off + (ncopy : Nat) - s.off).toNat = (h.off - s.off).toNat + ncopy by omega,
          ← List.drop_drop]
    | false =>
      have hbo : cfg.readFromStart = false := hrfs
      set j := offJumpVal s1 with hj
      have hjle : j ≤ (s.buf.length : Int) := by
        rw [hj]
        unfold offJumpVal
        rw [hs1, setOff_buf]
        exact foldl_min_le_init _ _
      have hjmem : ∀ o ∈ regOffsets s1, j ≤ o - s.off := by
        intro o ho
        rw [hj]
        unfold offJumpVal
        rw [hs1, setOff_buf, setOff_off]
        exact foldl_min_le_mem _ _ _ (List.mem_map_of_mem _ ho)
      have hj0 : 0 ≤ j := by
        rw [hj]
        unfold offJumpVal
        rw [hs1, setOff_buf, setOff_off]
        refine le_foldl_min _ _ _ (by positivity) ?_
        intro x hx
        obtain ⟨o, ho, hxo⟩ := List.mem_map.mp hx
        rw [← hxo]
        exact (hbound1 o ho).1
      have hjself : j ≤ h.off + (ncopy : Nat) - s.off := hjmem _ hself
      set s2 : FW := { s1 with buf := s1.buf.drop j.toNat, off := s1.off + j } with hs2
      have hupd : updateOff cfg s1 = some s2 := by
        unfold updateOff
        rw [if_neg (by rw [hbo]; exact Bool.false_ne_true), if_neg (not_lt.mpr hj0)]
      rw [hupd]
      have hs2buf : s2.buf = s.buf.drop j.toNat := by rw [hs2, hs1]; rfl
      have hs2off : s2.off = s.off + j := by rw [hs2, hs1]; rfl
      have hs2len : (s2.buf.length : Int) = (s.buf.length : Int) - j := by
        rw [hs2buf, List.length_drop]
        omega
      refine ⟨s2, h2, by rw [htake], ⟨?_, ?_, hr, ?_⟩, ?_⟩
      · rw [hs2]
        show s1.closed = true
        rw [hs1, setOff_closed]; exact hc
      · show findHandle s2 hid = some h2
        rw [show findHandle s2 hid = findHandle s1 hid by rw [hs2]; rfl]
        exact hfind1
      · intro o ho
        have ho1 : o ∈ regOffsets s1 := by
          rw [show regOffsets s2 = regOffsets s1 by rw [hs2]; rfl] at ho
          exact ho
        rw [hs2off, hs2len]
        have := hbound1 o ho1
        have := hjmem o ho1
        constructor
        · omega
        · omega
      · rw [← hdropn]
        unfold unconsumed
        rw [hs2buf, hs2off, hh2]
        show (s.buf.drop j.toNat).drop (h.off + (ncopy : Nat) - (s.off + j)).toNat = _
        rw [List.drop_drop,
          show j.toNat + (h.off + (ncopy : Nat) - (s.off + j)).toNat
            = (h.off - s.off).toNat + ncopy by omega,
          ← List.drop_drop]

/-- A fully caught-up registered reader of a closed writer gets the end of
stream result from every further call, with nothing changed. -/
theorem read_closed_eof (cfg : Config) (s : FW) (hid : Nat) (h : Handle)
    (hI : ReaderInv s hid h) (hu : unconsumed s h = []) :
    ∀ cap2, Read cfg s hid cap2 = some (ReadRes.eof, s) := by
  obtain ⟨hc, hf, hr, hw⟩ := hI
  have hmem : h ∈ s.handles := List.mem_of_find?_eq_some hf
  obtain ⟨hL0, hLlen⟩ := hw h.off (mem_regOffsets s h hmem hr)
  have hnot : ¬ (h.off - s.off > (s.buf.length : Int) ∨ h.off - s.off < 0) := by
    push_neg
    exact ⟨hLlen, hL0⟩
  intro cap2
  rw [read_eq_of_find cfg s hid h cap2 hf, if_neg hnot]
  have hlb : (s.buf.drop (h.off - s.off).toNat).length = 0 := by
    rw [show s.buf.drop (h.off - s.off).toNat = unconsumed s h from rfl, hu]
    rfl
  rw [if_pos hlb, if_pos hc]

/-- Draining a registered in-window reader of a closed writer with any
positive capacities whose total covers its backlog returns exactly the
unconsumed retained bytes and ends fully caught up. -/
theorem drain_closed (cfg : Config) (hid : Nat) :
    ∀ (caps : List Nat) (s : FW) (h : Handle), ReaderInv s hid h →
      (∀ c ∈ caps, 0 < c) → (unconsumed s h).length ≤ caps.sum →
      ∃ sf h3, drainReads cfg s hid caps = some (unconsumed s h, sf)
        ∧ ReaderInv sf hid h3 ∧ unconsumed sf h3 = [] := by
  intro caps
  induction caps with
  | nil =>
    intro s h hI hpos hsum
    have hu : unconsumed s h = [] := List.length_eq_zero.mp (Nat.le_zero.mp hsum)
    exact ⟨s, h, by rw [drainReads, hu], hI, hu⟩
  | cons c rest ih =>
    intro s h hI hpos hsum
    have hc0 : 0 < c := hpos c (List.mem_cons_self _ _)
    have hpos2 : ∀ x ∈ rest, 0 < x := fun x hx => hpos x (List.mem_cons_of_mem _ hx)
    rcases read_closed_step cfg s hid h c hI hc0 with ⟨hu, hrd⟩ | ⟨s2, h2, hrd, hI2, hu2⟩
    · obtain ⟨sf, h3, hd, hI3, hu3⟩ := ih s h hI hpos2 (by rw [hu]; exact Nat.zero_le _)
      refine ⟨sf, h3, ?_, hI3, hu3⟩
      rw [drainReads, hrd]
      exact hd
    · have hrest : (unconsumed s2 h2).length ≤ rest.sum := by
        rw [hu2, List.length_drop]
        rw [List.sum_cons] at hsum
        omega
      obtain ⟨sf, h3, hd, hI3, hu3⟩ := ih s2 h2 hI2 hpos2 hrest
      refine ⟨sf, h3, ?_, hI3, hu3⟩
      rw [drainReads, hrd]
      dsimp only
      rw [hd]
      dsimp only
      rw [hu2, List.take_append_drop]

theorem find?_append_of_none (p : Handle → Bool) :
    ∀ (l1 l2 : List Handle), l1.find? p = none → (l1 ++ l2).find? p = l2.find? p := by
  intro l1
  induction l1 with
  | nil => intro l2 _; rfl
  | cons a t ih =>
    intro l2 hnone
    cases hpa : p a with
    | true =>
      rw [List.find?_cons_of_pos _ hpa] at hnone
      cases hnone
    | false =>
      have hna : ¬ p a = true := by rw [hpa]; exact Bool.false_ne_true
      rw [List.find?_cons_of_neg _ hna] at hnone
      rw [List.cons_append, List.find?_cons_of_neg _ hna]
      exact ih l2 hnone

/-- C10: a write of the empty byte sequence returns success with zero bytes
accepted and changes no state, in every state of the writer — the length
check runs before the closed check, so even a closed writer reports
success rather than the closed error. -/
theorem c10_empty_write (cfg : Config) (s : FW) :
    write cfg s [] = some ((0, none), s) := rfl

/-- C7: a non-empty write on a closed writer fails with the closed-pipe
error, accepts zero bytes, and leaves the whole state (buffer, offset,
readers) unchanged. -/
theorem c7_write_after_close (cfg : Config) (s : FW) (p : List Nat)
    (hc : s.closed = true) (hp : p ≠ []) :
    write cfg s p = some ((0, some WErr.closedPipe), s) := by
  unfold write
  rw [if_neg (fun h0 => hp (List.length_eq_zero.mp h0)), if_pos hc]

theorem c7_write_after_close_witness :
    write ⟨[], 0, false⟩ ⟨[1, 2], 2, true, [⟨0, 2, true⟩], 1⟩ [9]
      = some ((0, some WErr.closedPipe), ⟨[1, 2], 2, true, [⟨0, 2, true⟩], 1⟩) :=
  c7_write_after_close ⟨[], 0, false⟩ ⟨[1, 2], 2, true, [⟨0, 2, true⟩], 1⟩ [9] rfl (by decide)

/-- C9: with read_from_start false, an open writer, and zero registered
readers, a write of any byte sequence reports full success (the whole
input length, no error) while the state, in particular buffer and
base offset, is entirely unchanged — the data is silently discarded, in
every mode including bounded mode. -/
theorem c9_discard_no_readers (cfg : Config) (s : FW) (p : List Nat)
    (hrfs : cfg.readFromStart = false) (hc : s.closed = false) (hreg : numRegistered s = 0) :
    write cfg s p = some ((p.length, none), s) := by
  unfold write
  by_cases hp : p.length = 0
  · rw [if_pos hp, hp]
  · rw [if_neg hp, if_neg (by simp [hc]), if_pos ⟨hrfs, hreg⟩]

theorem c9_discard_no_readers_witness :
    write ⟨[], 4, false⟩ ⟨[], 0, false, [⟨0, 0, false⟩], 1⟩ [7, 8]
      = some ((2, none), ⟨[], 0, false, [⟨0, 0, false⟩], 1⟩) :=
  c9_discard_no_readers ⟨[], 4, false⟩ ⟨[], 0, false, [⟨0, 0, false⟩], 1⟩ [7, 8]
    rfl rfl (by decide)

/-- C8: a newly created reader handle starts at base offset when
read_from_start is true and at the tail (base offset plus buffer length)
otherwise; it is registered, and buffer, offset, closed flag, and the
other handles are untouched. -/
theorem c8_new_reader (cfg : Config) (s : FW) (hc : s.closed = false)
    (hfresh : findHandle s s.nextId = none) :
    ∃ s2 rid, newReader cfg s = some (s2, rid)
      ∧ findHandle s2 rid
          = some ⟨rid, if cfg.readFromStart then s.off else s.off + (s.buf.length : Int), true⟩
      ∧ s2.buf = s.buf ∧ s2.off = s.off ∧ s2.closed = s.closed
      ∧ s2.handles = s.handles ++
          [⟨rid, if cfg.readFromStart then s.off else s.off + (s.buf.length : Int), true⟩] := by
  refine ⟨{ s with
      handles := s.handles ++
        [⟨s.nextId, if cfg.readFromStart then s.off else s.off + (s.buf.length : Int), true⟩]
      nextId := s.nextId + 1 }, s.nextId, ?_, ?_, rfl, rfl, rfl, rfl⟩
  · unfold newReader
    rw [if_neg (by simp [hc])]
  · show (s.handles ++
        ([⟨s.nextId, if cfg.readFromStart then s.off else s.off + (s.buf.length : Int), true⟩]
          : List Handle)).find? (fun h : Handle => h.hid == s.nextId) = _
    rw [find?_append_of_none _ _ _ hfresh,
      List.find?_cons_of_pos _ (by simp)]

theorem c8_new_reader_witness :
    ∃ s2 rid, newReader ⟨[], 0, false⟩ ⟨[1, 2], 5, false, [⟨0, 7, true⟩], 1⟩ = some (s2, rid)
      ∧ findHandle s2 rid = some ⟨rid, 7, true⟩
      ∧ s2.buf = [1, 2] ∧ s2.off = 5 ∧ s2.closed = false
      ∧ s2.handles = [⟨0, 7, true⟩, ⟨rid, 7, true⟩] :=
  c8_new_reader ⟨[], 0, false⟩ ⟨[1, 2], 5, false, [⟨0, 7, true⟩], 1⟩ rfl (by decide)

/-- C1 (counterexample): bounded tail mode, limit 4, one registered reader
at offset 0, retained buffer of 3 bytes.  Writing 3 more bytes forces the
base offset from 0 to 2, past the reader's offset 0, yet Write accepts the
whole input (3, no error) and mutates buffer and base offset — it is not
rejected, no rejection result exists in the code. -/
theorem c1_counterexample :
    run ⟨[], 4, false⟩ (newFanoutWriter ⟨[], 4, false⟩) [Op.doNewReader, Op.doWrite [1, 2, 3]]
        = some ⟨[1, 2, 3], 0, false, [⟨0, 0, true⟩], 1⟩
    ∧ write ⟨[], 4, false⟩ ⟨[1, 2, 3], 0, false, [⟨0, 0, true⟩], 1⟩ [4, 5, 6]
        = some ((3, none), ⟨[3, 4, 5, 6], 2, false, [⟨0, 0, true⟩], 1⟩) := by
  exact ⟨rfl, rfl⟩

/-- C1 (amended): in bounded mode with read_from_start false, a non-empty
write on an open writer with at least one registered reader is always
accepted in full — Write returns the input length with no error, the
resulting buffer holds at most limit bytes, the base offset never moves
backwards, and the reader set (with its offsets) is untouched.  A reader
stranded by the trim is detected only at its next read. -/
theorem c1_amended_accepts (cfg : Config) (s : FW) (p : List Nat)
    (_hrfs : cfg.readFromStart = false) (hlim : 0 < cfg.limit) (hc : s.closed = false)
    (hreg : numRegistered s ≠ 0) (hp : p ≠ []) :
    ∃ s2, write cfg s p = some ((p.length, none), s2)
      ∧ (s2.buf.length : Int) ≤ cfg.limit ∧ s.off ≤ s2.off
      ∧ s2.handles = s.handles ∧ s2.closed = s.closed := by
  have hp0 : ¬ p.length = 0 := fun h0 => hp (List.length_eq_zero.mp h0)
  have hplen : 0 < p.length := Nat.pos_of_ne_zero hp0
  unfold write
  rw [if_neg hp0, if_neg (by simp [hc]), if_neg (fun hand => hreg hand.2),
    if_pos (by omega : cfg.limit ≠ 0)]
  by_cases hgt : cfg.limit > (p.length : Int)
  · rw [if_pos hgt]
    dsimp only
    by_cases hinv : (s.buf.length : Int) + (p.length : Int) - cfg.limit > 0
    · rw [if_pos hinv]
      refine ⟨_, rfl, ?_, by dsimp only; omega, rfl, rfl⟩
      rw [List.length_append, List.length_drop]
      push_cast
      omega
    · rw [if_neg hinv]
      refine ⟨_, rfl, ?_, le_refl _, rfl, rfl⟩
      rw [List.length_append]
      push_cast
      omega
  · rw [if_neg hgt, if_neg (by omega : ¬ cfg.limit < 0)]
    refine ⟨_, rfl, ?_, by dsimp only; omega, rfl, rfl⟩
    rw [List.length_drop]
    omega

theorem c1_amended_accepts_witness :
    ∃ s2, write ⟨[], 4, false⟩ ⟨[1, 2, 3], 0, false, [⟨0, 0, true⟩], 1⟩ [4, 5, 6]
        = some ((3, none), s2)
      ∧ (s2.buf.length : Int) ≤ 4 ∧ (0 : Int) ≤ s2.off
      ∧ s2.handles = [⟨0, 0, true⟩] ∧ s2.closed = false :=
  c1_amended_accepts ⟨[], 4, false⟩ ⟨[1, 2, 3], 0, false, [⟨0, 0, true⟩], 1⟩ [4, 5, 6]
    rfl (by decide) rfl (by decide) (by decide)

/-- C4 (counterexample): bounded mode with read_from_start true, limit 4.
Three bytes are written, a reader is created at base offset 0, three more
bytes are written so limit-trimming advances the base offset to 2, past
the reader.  Its next read DOES return the fall-behind error and
deregisters it, contradicting the claim that the error is raised only in
non-read_from_start mode. -/
theorem c4_counterexample :
    run ⟨[], 4, true⟩ (newFanoutWriter ⟨[], 4, true⟩)
        [Op.doWrite [1, 2, 3], Op.doNewReader, Op.doWrite [4, 5, 6]]
        = some ⟨[3, 4, 5, 6], 2, false, [⟨0, 0, true⟩], 1⟩
    ∧ Read ⟨[], 4, true⟩ ⟨[3, 4, 5, 6], 2, false, [⟨0, 0, true⟩], 1⟩ 0 10
        = some (ReadRes.fellBehind, ⟨[3, 4, 5, 6], 2, false, [⟨0, 0, false⟩], 1⟩) := by
  exact ⟨rfl, rfl⟩

/-- C4 (amended): a reader whose offset has fallen below the base offset
receives the fall-behind error from its next read and is deregistered, in
every mode — the check in Read is not restricted to non-read_from_start
mode; buffer, base offset and closed flag are unchanged. -/
theorem c4_amended_fell_behind_any_mode (cfg : Config) (s : FW) (hid : Nat) (h : Handle)
    (cap : Nat) (hf : findHandle s hid = some h) (hbehind : h.off - s.off < 0) :
    Read cfg s hid cap = some (ReadRes.fellBehind, deregister s hid)
    ∧ (deregister s hid).buf = s.buf ∧ (deregister s hid).off = s.off
    ∧ (deregister s hid).closed = s.closed := by
  refine ⟨?_, rfl, rfl, rfl⟩
  rw [read_eq_of_find cfg s hid h cap hf, if_pos (Or.inr hbehind)]

theorem c4_amended_fell_behind_any_mode_witness :
    Read ⟨[], 4, true⟩ ⟨[3, 4, 5, 6], 2, false, [⟨0, 0, true⟩], 1⟩ 0 10
      = some (ReadRes.fellBehind, deregister ⟨[3, 4, 5, 6], 2, false, [⟨0, 0, true⟩], 1⟩ 0)
    ∧ (deregister ⟨[3, 4, 5, 6], 2, false, [⟨0, 0, true⟩], 1⟩ 0).buf = [3, 4, 5, 6]
    ∧ (deregister ⟨[3, 4, 5, 6], 2, false, [⟨0, 0, true⟩], 1⟩ 0).off = 2
    ∧ (deregister ⟨[3, 4, 5, 6], 2, false, [⟨0, 0, true⟩], 1⟩ 0).closed = false :=
  c4_amended_fell_behind_any_mode ⟨[], 4, true⟩ ⟨[3, 4, 5, 6], 2, false, [⟨0, 0, true⟩], 1⟩
    0 ⟨0, 0, true⟩ 10 rfl (by decide)

/-- C2: a reachable state in which a read aborts.  Bounded tail mode with
limit 4, two readers; reader 1 consumes 3 bytes, a second write advances
the base offset to 2 past reader 0 (still registered at offset 0).  The
next read by reader 1 runs the trimming step, whose minimum over the
registered readers is 0 − 2 = −2, a negative slice index: the call aborts
instead of surfacing a documented error result. -/
theorem c2_trim_negative_index_bug :
    run ⟨[], 4, false⟩ (newFanoutWriter ⟨[], 4, false⟩)
        [Op.doNewReader, Op.doNewReader, Op.doWrite [1, 2, 3], Op.doRead 1 3,
          Op.doWrite [4, 5, 6]]
        = some ⟨[3, 4, 5, 6], 2, false, [⟨0, 0, true⟩, ⟨1, 3, true⟩], 2⟩
    ∧ offJumpVal (setOff ⟨[3, 4, 5, 6], 2, false, [⟨0, 0, true⟩, ⟨1, 3, true⟩], 2⟩ 1 4) = -2
    ∧ Read ⟨[], 4, false⟩ ⟨[3, 4, 5, 6], 2, false, [⟨0, 0, true⟩, ⟨1, 3, true⟩], 2⟩ 1 1
        = none := by
  exact ⟨rfl, rfl, rfl⟩

/-- C3: the fall-behind detection is not deterministic.  Bounded tail mode
with limit 6, a reader at offset 0, one accepted write of 10 bytes: the
reader is 10 > 6 bytes behind the latest accepted write, yet its next read
returns 6 bytes of (shifted) data with no error, because the
full-replacement branch of Write advanced the base offset by len(buffer)
= 0 instead of len(buffer) + len(input) − limit = 4, so the reader's
offset never falls outside the window. -/
theorem c3_fall_behind_missed_bug :
    run ⟨[], 6, false⟩ (newFanoutWriter ⟨[], 6, false⟩)
        [Op.doNewReader, Op.doWrite [1, 2, 3, 4, 5, 6, 7, 8, 9, 10]]
        = some ⟨[5, 6, 7, 8, 9, 10], 0, false, [⟨0, 0, true⟩], 1⟩
    ∧ Read ⟨[], 6, false⟩ ⟨[5, 6, 7, 8, 9, 10], 0, false, [⟨0, 0, true⟩], 1⟩ 0 10
        = some (ReadRes.data [5, 6, 7, 8, 9, 10], ⟨[], 6, false, [⟨0, 6, true⟩], 1⟩) := by
  exact ⟨rfl, rfl⟩

/-- C5 (counterexample): unbounded tail mode with an initial 3-byte
buffer, whose construction puts the base offset at 3 and a new reader at
6.  Closing that reader skips the trimming step (its offset 6 differs from
the base offset 3): afterwards no readers remain, yet the whole 3-byte
buffer is still retained — trimming does not run after every reader
close, and the buffer is not released when no readers remain. -/
theorem c5_counterexample :
    run ⟨[1, 2, 3], 0, false⟩ (newFanoutWriter ⟨[1, 2, 3], 0, false⟩)
        [Op.doNewReader, Op.doCloseReader 0]
        = some ⟨[1, 2, 3], 3, false, [⟨0, 6, false⟩], 1⟩
    ∧ numRegistered ⟨[1, 2, 3], 3, false, [⟨0, 6, false⟩], 1⟩ = 0
    ∧ (⟨[1, 2, 3], 3, false, [⟨0, 6, false⟩], 1⟩ : FW).buf ≠ [] := by
  exact ⟨rfl, rfl, by decide⟩

/-- Inversion of a successful data-returning read: the resulting state is
obtained by running the trimming step on the state whose handle offset was
advanced by the number of bytes returned. -/
theorem read_data_updateOff (cfg : Config) (s : FW) (hid : Nat) (h : Handle)
    (cap : Nat) (s2 : FW) (bs : List Nat)
    (hf : findHandle s hid = some h)
    (hread : Read cfg s hid cap = some (ReadRes.data bs, s2)) (hbs : 0 < bs.length) :
    updateOff cfg (setOff s hid (h.off + (bs.length : Nat))) = some s2 := by
  rw [read_eq_of_find cfg s hid h cap hf] at hread
  by_cases h1 : (h.off - s.off > (s.buf.length : Int) ∨ h.off - s.off < 0)
  · rw [if_pos h1] at hread
    simp at hread
  · rw [if_neg h1] at hread
    by_cases h2 : (s.buf.drop (h.off - s.off).toNat).length = 0
    · rw [if_pos h2] at hread
      cases hcl : s.closed with
      | true => rw [if_pos hcl] at hread; simp at hread
      | false =>
        rw [if_neg (by rw [hcl]; exact Bool.false_ne_true)] at hread
        simp at hread
    · rw [if_neg h2] at hread
      by_cases h3 : 0 < min cap (s.buf.drop (h.off - s.off).toNat).length
      · rw [if_pos h3] at hread
        cases hupd : updateOff cfg (setOff s hid
            (h.off + (min cap (s.buf.drop (h.off - s.off).toNat).length : Nat))) with
        | none =>
          rw [hupd] at hread
          simp at hread
        | some s3 =>
          rw [hupd] at hread
          dsimp only at hread
          simp only [Option.some.injEq, Prod.mk.injEq, ReadRes.data.injEq] at hread
          obtain ⟨hbs2, hs2⟩ := hread
          have hlen : bs.length = min cap (s.buf.drop (h.off - s.off).toNat).length := by
            rw [← hbs2, List.length_take]
            exact min_eq_left (min_le_right _ _)
          rw [hlen, ← hs2]
          exact hupd
      · rw [if_neg h3] at hread
        simp only [Option.some.injEq, Prod.mk.injEq, ReadRes.data.injEq] at hread
        obtain ⟨hbs2, _⟩ := hread
        rw [← hbs2] at hbs
        simp at hbs

/-- C5 (amended): the trimming step runs on reader close only when the
closing handle's offset equals the base offset; when it runs in
read_from_start mode it changes nothing; when it runs in tail mode with a
non-negative jump, the jump is the minimum of the buffer length and the
registered readers' offsets minus the base offset (the buffer length when
no reader remains, releasing the whole buffer), that many bytes are
dropped from the front and the base offset advances by the same amount;
and every read that returns bytes reaches its final state by running the
trimming step on the offset-advanced state. -/
theorem c5_amended_trimming (cfg : Config) (s : FW) (hid : Nat) (h : Handle)
    (hf : findHandle s hid = some h) :
    clientClose cfg s hid
        = (if s.off = h.off then updateOff cfg (deregister s hid)
           else some (deregister s hid))
    ∧ (cfg.readFromStart = true → updateOff cfg s = some s)
    ∧ (cfg.readFromStart = false → regOffsets s = [] →
        updateOff cfg s = some { s with buf := [], off := s.off + (s.buf.length : Int) })
    ∧ (cfg.readFromStart = false → 0 ≤ offJumpVal s →
        updateOff cfg s
            = some { s with buf := s.buf.drop (offJumpVal s).toNat,
                            off := s.off + offJumpVal s }
        ∧ offJumpVal s ≤ (s.buf.length : Int)
        ∧ (∀ o ∈ regOffsets s, offJumpVal s ≤ o - s.off)
        ∧ (offJumpVal s = (s.buf.length : Int)
            ∨ ∃ o ∈ regOffsets s, offJumpVal s = o - s.off))
    ∧ (∀ cap s2 bs, Read cfg s hid cap = some (ReadRes.data bs, s2) → 0 < bs.length →
        updateOff cfg (setOff s hid (h.off + (bs.length : Nat))) = some s2) := by
  refine ⟨?_, ?_, ?_, ?_, ?_⟩
  · unfold clientClose
    rw [hf]
  · intro hrfs
    unfold updateOff
    rw [if_pos hrfs]
  · intro hrfs hempty
    unfold updateOff offJumpVal
    rw [hempty, List.map_nil, List.foldl_nil,
      if_neg (by rw [hrfs]; exact Bool.false_ne_true),
      if_neg (by omega : ¬ ((s.buf.length : Int) < 0)),
      show ((s.buf.length : Int)).toNat = s.buf.length by omega, List.drop_length]
  · intro hrfs hj0
    refine ⟨?_, ?_, ?_, ?_⟩
    · unfold updateOff
      rw [if_neg (by rw [hrfs]; exact Bool.false_ne_true), if_neg (not_lt.mpr hj0)]
    · exact foldl_min_le_init _ _
    · intro o ho
      exact foldl_min_le_mem _ _ _ (List.mem_map_of_mem _ ho)
    · rcases foldl_min_eq_init_or_mem ((regOffsets s).map (fun o => o - s.off))
          ((s.buf.length : Int)) with heq | hmem
      · exact Or.inl heq
      · obtain ⟨o, ho, hoeq⟩ := List.mem_map.mp hmem
        exact Or.inr ⟨o, ho, hoeq.symm⟩
  · intro cap s2 bs hread hbs
    exact read_data_updateOff cfg s hid h cap s2 bs hf hread hbs

theorem c5_amended_trimming_witness :
    clientClose ⟨[], 0, false⟩ ⟨[1, 2, 3], 0, false, [⟨0, 2, true⟩], 1⟩ 0
        = (if (0 : Int) = 2 then
             updateOff ⟨[], 0, false⟩ (deregister ⟨[1, 2, 3], 0, false, [⟨0, 2, true⟩], 1⟩ 0)
           else some (deregister ⟨[1, 2, 3], 0, false, [⟨0, 2, true⟩], 1⟩ 0))
    ∧ ((⟨[], 0, false⟩ : Config).readFromStart = true →
        updateOff ⟨[], 0, false⟩ ⟨[1, 2, 3], 0, false, [⟨0, 2, true⟩], 1⟩
          = some ⟨[1, 2, 3], 0, false, [⟨0, 2, true⟩], 1⟩)
    ∧ ((⟨[], 0, false⟩ : Config).readFromStart = false →
        regOffsets ⟨[1, 2, 3], 0, false, [⟨0, 2, true⟩], 1⟩ = [] →
        updateOff ⟨[], 0, false⟩ ⟨[1, 2, 3], 0, false, [⟨0, 2, true⟩], 1⟩
          = some ⟨[], 3, false, [⟨0, 2, true⟩], 1⟩)
    ∧ ((⟨[], 0, false⟩ : Config).readFromStart = false →
        0 ≤ offJumpVal ⟨[1, 2, 3], 0, false, [⟨0, 2, true⟩], 1⟩ →
        updateOff ⟨[], 0, false⟩ ⟨[1, 2, 3], 0, false, [⟨0, 2, true⟩], 1⟩
            = some ⟨[3], 2, false, [⟨0, 2, true⟩], 1⟩
        ∧ offJumpVal ⟨[1, 2, 3], 0, false, [⟨0, 2, true⟩], 1⟩ ≤ (3 : Int)
        ∧ (∀ o ∈ regOffsets ⟨[1, 2, 3], 0, false, [⟨0, 2, true⟩], 1⟩,
            offJumpVal ⟨[1, 2, 3], 0, false, [⟨0, 2, true⟩], 1⟩ ≤ o - 0)
        ∧ (offJumpVal ⟨[1, 2, 3], 0, false, [⟨0, 2, true⟩], 1⟩ = (3 : Int)
            ∨ ∃ o ∈ regOffsets ⟨[1, 2, 3], 0, false, [⟨0, 2, true⟩], 1⟩,
                offJumpVal ⟨[1, 2, 3], 0, false, [⟨0, 2, true⟩], 1⟩ = o - 0))
    ∧ (∀ cap s2 bs, Read ⟨[], 0, false⟩ ⟨[1, 2, 3], 0, false, [⟨0, 2, true⟩], 1⟩ 0 cap
          = some (ReadRes.data bs, s2) → 0 < bs.length →
        updateOff ⟨[], 0, false⟩
            (setOff ⟨[1, 2, 3], 0, false, [⟨0, 2, true⟩], 1⟩ 0 (2 + (bs.length : Nat)))
          = some s2) :=
  c5_amended_trimming ⟨[], 0, false⟩ ⟨[1, 2, 3], 0, false, [⟨0, 2, true⟩], 1⟩ 0
    ⟨0, 2, true⟩ rfl

/-- C6 (counterexample): bounded tail mode with limit 4; two readers are
created, six bytes are written in two writes (the second trims, moving the
base offset to 2 past reader 0, which is still registered), and the writer
is closed.  Registered reader 0 has consumed nothing, yet after close its
read returns the fall-behind error and no data — it never reads back the
bytes written before close. -/
theorem c6_counterexample :
    run ⟨[], 4, false⟩ (newFanoutWriter ⟨[], 4, false⟩)
        [Op.doNewReader, Op.doNewReader, Op.doWrite [1, 2, 3], Op.doRead 1 3,
          Op.doWrite [4, 5, 6], Op.doCloseWriter]
        = some ⟨[3, 4, 5, 6], 2, true, [⟨0, 0, true⟩, ⟨1, 3, true⟩], 2⟩
    ∧ Read ⟨[], 4, false⟩ ⟨[3, 4, 5, 6], 2, true, [⟨0, 0, true⟩, ⟨1, 3, true⟩], 2⟩ 0 10
        = some (ReadRes.fellBehind,
            ⟨[3, 4, 5, 6], 2, true, [⟨0, 0, false⟩, ⟨1, 3, true⟩], 2⟩) := by
  exact ⟨rfl, rfl⟩

/-- C6 (amended): after the writer is closed, a registered reader whose
offset lies inside the retained window — as does every other registered
offset — first reads back exactly its unconsumed retained bytes, over any
sequence of positive-capacity reads whose total covers them, and from then
on every read call returns the end-of-stream result, repeatably, changing
nothing.  (A reader outside the window instead gets the fall-behind
error and no data, as the counterexample shows.) -/
theorem c6_amended_drains_then_eof (cfg : Config) (s : FW) (hid : Nat) (h : Handle)
    (caps : List Nat) (hc : s.closed = true) (hf : findHandle s hid = some h)
    (hr : h.reg = true) (hw : inWindow s) (hpos : ∀ c ∈ caps, 0 < c)
    (hsum : (unconsumed s h).length ≤ caps.sum) :
    ∃ sf, drainReads cfg s hid caps = some (unconsumed s h, sf)
      ∧ ∀ cap2, Read cfg sf hid cap2 = some (ReadRes.eof, sf) := by
  obtain ⟨sf, h3, hd, hI3, hu3⟩ := drain_closed cfg hid caps s h ⟨hc, hf, hr, hw⟩ hpos hsum
  exact ⟨sf, hd, read_closed_eof cfg sf hid h3 hI3 hu3⟩

theorem c6_amended_drains_then_eof_witness :
    ∃ sf, drainReads ⟨[], 4, false⟩ ⟨[1, 2, 3, 4, 5, 6], 2, true, [⟨0, 3, true⟩, ⟨1, 8, true⟩], 2⟩
        0 [2, 2, 1]
        = some (unconsumed ⟨[1, 2, 3, 4, 5, 6], 2, true, [⟨0, 3, true⟩, ⟨1, 8, true⟩], 2⟩
            ⟨0, 3, true⟩, sf)
      ∧ ∀ cap2, Read ⟨[], 4, false⟩ sf 0 cap2 = some (ReadRes.eof, sf) :=
  c6_amended_drains_then_eof ⟨[], 4, false⟩
    ⟨[1, 2, 3, 4, 5, 6], 2, true, [⟨0, 3, true⟩, ⟨1, 8, true⟩], 2⟩ 0 ⟨0, 3, true⟩ [2, 2, 1]
    rfl rfl rfl (by decide) (by decide) (by decide)
